import Mathlib

/-!
Verification of `ethcore/light/src/net/request/storage.rs` (Parity Ethereum
light-client storage-proof requests): a shallow embedding of the storage
request kind together with proofs of the specified properties of
`check_outputs`, `note_outputs`, `fill`, `complete`, `adjust_refs` and the
wire round trip.
-/

namespace Storage

/-- Modelled from the spec: `H256` (from `ethereum_types`) is a fixed-size
256-bit hash value; this layer only copies and compares such values. -/
abbrev H256 := Fin (2 ^ 256)

/-- Modelled from the spec: `Bytes` is an opaque byte string. -/
abbrev Bytes := List Nat

/-- Modelled from the spec (§7): the single error kind `NoSuchOutput`, raised
when a back-reference points at a missing/ill-kinded output or when completion
is attempted while unresolved back-references remain. -/
inductive NoSuchOutput
  | noSuchOutput
deriving DecidableEq, Repr

/-- Modelled from the spec (§3): `OutputKind` is a closed enumeration of the
shapes a response-exposed value can take (e.g. "Hash", "Number"), with no
payload, used only for compatibility checking. -/
inductive OutputKind
  | Hash
  | Number
deriving DecidableEq, Repr

/-- Modelled from the spec (§3): `Output` is a sum type carrying one resolved
datum per `OutputKind` variant. -/
inductive Output
  | Hash : H256 → Output
  | Number : Nat → Output
deriving DecidableEq

/-- Modelled from the spec (§3): `Field<T>` is a resolution slot — either a
concrete scalar of type `T` or a back-reference
`(request_index, output_index)` to an output elsewhere in the batch. -/
inductive Field (T : Type)
  | Scalar : T → Field T
  | BackReference : Nat → Nat → Field T
deriving DecidableEq

/-- Modelled from the spec (§4.4): turning a field into its scalar fails with
`NoSuchOutput` exactly when the field is still a back-reference. -/
def Field.into_scalar {T : Type} : Field T → Except NoSuchOutput T
  | Field.Scalar v => Except.ok v
  | Field.BackReference _ _ => Except.error NoSuchOutput.noSuchOutput

/-- Modelled from the spec (§4.5): remapping rewrites a back-reference's
`request_index` through the mapping, leaving the `output_index` and any
scalar field untouched. -/
def Field.adjust_req {T : Type} (mapping : Nat → Nat) : Field T → Field T
  | Field.BackReference req idx => Field.BackReference (mapping req) idx
  | fld => fld

/-- Whether a field is already resolved to a scalar. -/
def Field.isScalar {T : Type} : Field T → Bool
  | Field.Scalar _ => true
  | Field.BackReference _ _ => false

/-- `IncompleteRequest` from `storage.rs`: a potentially incomplete request
for a storage proof, with three `Field<H256>` slots. -/
structure IncompleteRequest where
  block_hash : Field H256
  address_hash : Field H256
  key_hash : Field H256
deriving DecidableEq

/-- `CompleteRequest` from `storage.rs`: a complete request for a storage
proof, every slot a concrete hash. -/
structure CompleteRequest where
  block_hash : H256
  address_hash : H256
  key_hash : H256
deriving DecidableEq

/-- `Response` from `storage.rs`: the output of a storage-proof request, an
inclusion/exclusion proof plus the storage value. -/
structure Response where
  proof : List Bytes
  value : H256
deriving DecidableEq

/-- `IncompleteRequest::complete` from `storage.rs`: builds the
`CompleteRequest` from the three fields' scalars, propagating the first
`NoSuchOutput` from `into_scalar` (the `?` operator). -/
def IncompleteRequest.complete (self : IncompleteRequest) :
    Except NoSuchOutput CompleteRequest :=
  match self.block_hash.into_scalar with
  | Except.error e => Except.error e
  | Except.ok block_hash =>
    match self.address_hash.into_scalar with
    | Except.error e => Except.error e
    | Except.ok address_hash =>
      match self.key_hash.into_scalar with
      | Except.error e => Except.error e
      | Except.ok key_hash =>
        Except.ok { block_hash := block_hash, address_hash := address_hash, key_hash := key_hash }

/-- **C1.** `complete` succeeds exactly when all three fields are `Scalar`;
on success the `CompleteRequest`'s fields equal the original scalar values,
and otherwise it fails with `NoSuchOutput`. -/
theorem complete_iff_all_scalar (self : IncompleteRequest) :
    ((∃ c, self.complete = Except.ok c) ↔
      (self.block_hash.isScalar = true ∧ self.address_hash.isScalar = true ∧
        self.key_hash.isScalar = true)) ∧
    (∀ b a k, self.block_hash = Field.Scalar b → self.address_hash = Field.Scalar a →
      self.key_hash = Field.Scalar k →
      self.complete = Except.ok { block_hash := b, address_hash := a, key_hash := k }) ∧
    (¬ (self.block_hash.isScalar = true ∧ self.address_hash.isScalar = true ∧
        self.key_hash.isScalar = true) →
      self.complete = Except.error NoSuchOutput.noSuchOutput) := by
  obtain ⟨bh, ah, kh⟩ := self
  cases bh <;> cases ah <;> cases kh <;>
    simp [IncompleteRequest.complete, Field.into_scalar, Field.isScalar]

/-- The oracle interface consumed by `fill` (spec §6): a lookup
`(request_index, output_index) -> Result<Output, NoSuchOutput>`. -/
abbrev Oracle := Nat → Nat → Except NoSuchOutput Output

/-- The per-field body of `IncompleteRequest::fill` from `storage.rs`: the
source repeats this block verbatim for `block_hash`, `address_hash` and
`key_hash`, so it is factored here. A back-reference becomes `Scalar` when
the oracle yields `Ok(Output::Hash(v))` and is otherwise reassigned the same
`BackReference(req, idx)`; a scalar field is not entered (`if let`). -/
def fillHashField (oracle : Oracle) : Field H256 → Field H256
  | Field.BackReference req idx =>
    match oracle req idx with
    | Except.ok (Output.Hash v) => Field.Scalar v
    | _ => Field.BackReference req idx
  | fld => fld

/-- `IncompleteRequest::fill` from `storage.rs`: applies the per-field
resolution block to each of the three fields in order (the blocks are
independent, each touching only its own field). -/
def IncompleteRequest.fill (self : IncompleteRequest) (oracle : Oracle) :
    IncompleteRequest :=
  { block_hash := fillHashField oracle self.block_hash,
    address_hash := fillHashField oracle self.address_hash,
    key_hash := fillHashField oracle self.key_hash }

/-- The spec's description of what `fill` does to a single field: a scalar is
untouched; a back-reference becomes `Scalar v` exactly when the oracle at its
coordinates returns `Ok(Output::Hash(v))`, and is left the same back-reference
when the oracle errs or returns an output of any other kind. -/
def FillFieldSpec (oracle : Oracle) (before after : Field H256) : Prop :=
  (∀ v, before = Field.Scalar v → after = Field.Scalar v) ∧
  (∀ req idx, before = Field.BackReference req idx →
    (∀ v, after = Field.Scalar v ↔ oracle req idx = Except.ok (Output.Hash v)) ∧
    ((∀ v, oracle req idx ≠ Except.ok (Output.Hash v)) →
      after = Field.BackReference req idx))

lemma fillHashField_spec (oracle : Oracle) (fld : Field H256) :
    FillFieldSpec oracle fld (fillHashField oracle fld) := by
  constructor
  · rintro v rfl; rfl
  · rintro req idx rfl
    constructor
    · intro v
      cases h : oracle req idx with
      | error e => simp [fillHashField, h]
      | ok out => cases out <;> simp [fillHashField, h]
    · intro hnone
      cases h : oracle req idx with
      | error e => simp [fillHashField, h]
      | ok out =>
        cases out with
        | Hash v => exact absurd h (hnone v)
        | Number n => simp [fillHashField, h]

/-- **C2.** `fill` never errors (it is total, returning a request); each
back-reference field becomes `Scalar v` exactly when the oracle at its
coordinates returns `Ok(Output::Hash(v))`, is left the same back-reference
when the oracle errs or returns an output of another kind, and scalar fields
are untouched. -/
theorem fill_resolves_fields (self : IncompleteRequest) (oracle : Oracle) :
    FillFieldSpec oracle self.block_hash (self.fill oracle).block_hash ∧
    FillFieldSpec oracle self.address_hash (self.fill oracle).address_hash ∧
    FillFieldSpec oracle self.key_hash (self.fill oracle).key_hash :=
  ⟨fillHashField_spec oracle self.block_hash,
   fillHashField_spec oracle self.address_hash,
   fillHashField_spec oracle self.key_hash⟩

lemma fillHashField_idem (oracle : Oracle) (fld : Field H256) :
    fillHashField oracle (fillHashField oracle fld) = fillHashField oracle fld := by
  cases fld with
  | Scalar v => rfl
  | BackReference req idx =>
    cases h : oracle req idx with
    | error e => simp [fillHashField, h]
    | ok out => cases out <;> simp [fillHashField, h]

/-- **C3.** `fill` is idempotent: applying it twice with the same oracle
yields the same request as applying it once. -/
theorem fill_idempotent (self : IncompleteRequest) (oracle : Oracle) :
    (self.fill oracle).fill oracle = self.fill oracle := by
  simp [IncompleteRequest.fill, fillHashField_idem]

/-- **C4.** `fill` is monotonic: every field that is `Scalar` before the call
is still `Scalar` with the same value after the call. -/
theorem fill_monotonic (self : IncompleteRequest) (oracle : Oracle) (v : H256) :
    (self.block_hash = Field.Scalar v → (self.fill oracle).block_hash = Field.Scalar v) ∧
    (self.address_hash = Field.Scalar v → (self.fill oracle).address_hash = Field.Scalar v) ∧
    (self.key_hash = Field.Scalar v → (self.fill oracle).key_hash = Field.Scalar v) := by
  refine ⟨fun h => ?_, fun h => ?_, fun h => ?_⟩ <;>
    simp [IncompleteRequest.fill, h, fillHashField]

/-- A concrete hash value used by witnesses. -/
def hOne : H256 := ⟨1, by norm_num⟩

/-- A second concrete hash value used by witnesses. -/
def hTwo : H256 := ⟨2, by norm_num⟩

/-- A third concrete hash value used by witnesses. -/
def hThree : H256 := ⟨3, by norm_num⟩

/-- A concrete fully scalar request used by witnesses. -/
def reqAllScalar : IncompleteRequest :=
  { block_hash := Field.Scalar hOne,
    address_hash := Field.Scalar hTwo,
    key_hash := Field.Scalar hThree }

/-- A concrete oracle used by witnesses: output 0 of request 0 is `hOne`,
everything else is missing. -/
def oracleEx : Oracle := fun req idx =>
  if req = 0 ∧ idx = 0 then Except.ok (Output.Hash hOne)
  else Except.error NoSuchOutput.noSuchOutput

/-- A concrete request with one back-reference, used by witnesses. -/
def reqOneBackRef : IncompleteRequest :=
  { block_hash := Field.BackReference 0 0,
    address_hash := Field.Scalar hTwo,
    key_hash := Field.Scalar hThree }

/-- Witness for **C1** at a concrete all-scalar request. -/
theorem complete_iff_all_scalar_witness :
    reqAllScalar.complete =
      Except.ok { block_hash := hOne, address_hash := hTwo, key_hash := hThree } :=
  (complete_iff_all_scalar reqAllScalar).2.1 hOne hTwo hThree rfl rfl rfl

/-- Witness for **C4** at a concrete request and oracle. -/
theorem fill_monotonic_witness :
    (reqAllScalar.fill oracleEx).block_hash = Field.Scalar hOne :=
  (fill_monotonic reqAllScalar oracleEx hOne).1 rfl

/-- The validation predicate interface consumed by `check_outputs` (spec §6):
`(request_index, output_index, OutputKind) -> Result<(), NoSuchOutput>`. -/
abbrev CheckFun := Nat → Nat → OutputKind → Except NoSuchOutput Unit

/-- `IncompleteRequest::check_outputs` from `storage.rs`, instrumented with
the list of predicate invocations it makes (the `FnMut` callback may observe
its own call sequence, so the embedding records it): for each of the three
fields in declaration order, if the field is a back-reference the predicate
is called with `(req, idx, OutputKind::Hash)` and an error is propagated
immediately (the `?` operator); otherwise the field is skipped. Returns the
result together with the calls made, in order. -/
def IncompleteRequest.check_outputs_calls (self : IncompleteRequest) (f : CheckFun) :
    Except NoSuchOutput Unit × List (Nat × Nat × OutputKind) :=
  let step : Field H256 → Except NoSuchOutput Unit × List (Nat × Nat × OutputKind) :=
    fun fld =>
      match fld with
      | Field.BackReference req idx => (f req idx OutputKind.Hash, [(req, idx, OutputKind.Hash)])
      | _ => (Except.ok (), [])
  let (r1, c1) := step self.block_hash
  match r1 with
  | Except.error e => (Except.error e, c1)
  | Except.ok _ =>
    let (r2, c2) := step self.address_hash
    match r2 with
    | Except.error e => (Except.error e, c1 ++ c2)
    | Except.ok _ =>
      let (r3, c3) := step self.key_hash
      (r3, c1 ++ c2 ++ c3)

/-- `IncompleteRequest::check_outputs` from `storage.rs`: the result of the
instrumented run, forgetting the recorded invocations. -/
def IncompleteRequest.check_outputs (self : IncompleteRequest) (f : CheckFun) :
    Except NoSuchOutput Unit :=
  (self.check_outputs_calls f).1

/-- **C5.** `check_outputs` returns `Ok(())` if and only if the predicate
returns `Ok(())` on every back-reference field, each queried with its
`(request_index, output_index)` and `OutputKind::Hash`; being a plain
function of the request, the pass mutates nothing. -/
theorem check_outputs_ok_iff (self : IncompleteRequest) (f : CheckFun) :
    self.check_outputs f = Except.ok () ↔
      ((∀ req idx, self.block_hash = Field.BackReference req idx →
          f req idx OutputKind.Hash = Except.ok ()) ∧
       (∀ req idx, self.address_hash = Field.BackReference req idx →
          f req idx OutputKind.Hash = Except.ok ()) ∧
       (∀ req idx, self.key_hash = Field.BackReference req idx →
          f req idx OutputKind.Hash = Except.ok ())) := by
  obtain ⟨bh, ah, kh⟩ := self
  cases bh <;> cases ah <;> cases kh <;>
    simp only [IncompleteRequest.check_outputs, IncompleteRequest.check_outputs_calls] <;>
    (try split) <;> (try split) <;> simp_all

/-- The back-reference fields of a request in declaration order
(`block_hash`, then `address_hash`, then `key_hash`), each with its
coordinates and expected kind `OutputKind::Hash`. -/
def backRefFields (self : IncompleteRequest) : List (Nat × Nat × OutputKind) :=
  (match self.block_hash with
   | Field.BackReference req idx => [(req, idx, OutputKind.Hash)]
   | _ => []) ++
  (match self.address_hash with
   | Field.BackReference req idx => [(req, idx, OutputKind.Hash)]
   | _ => []) ++
  (match self.key_hash with
   | Field.BackReference req idx => [(req, idx, OutputKind.Hash)]
   | _ => [])

/-- The spec's description of a short-circuiting check pass: the predicate is
invoked on the listed coordinates in order; on the first error that error is
returned and no later entry is visited. -/
def runChecksSpec (f : CheckFun) :
    List (Nat × Nat × OutputKind) → Except NoSuchOutput Unit × List (Nat × Nat × OutputKind)
  | [] => (Except.ok (), [])
  | (req, idx, k) :: rest =>
    match f req idx k with
    | Except.error e => (Except.error e, [(req, idx, k)])
    | Except.ok _ =>
      let (r, cs) := runChecksSpec f rest
      (r, (req, idx, k) :: cs)

/-- **C10.** `check_outputs` evaluates the fields in declaration order
(`block_hash`, `address_hash`, `key_hash`) and short-circuits: its run
(result and invocation list) equals the short-circuiting pass over the
back-reference fields in declaration order, so after the first erring field
the error is returned at once and no later field's invocation occurs. -/
theorem check_outputs_declaration_order (self : IncompleteRequest) (f : CheckFun) :
    self.check_outputs_calls f = runChecksSpec f (backRefFields self) := by
  obtain ⟨bh, ah, kh⟩ := self
  cases bh <;> cases ah <;> cases kh <;>
    simp only [IncompleteRequest.check_outputs_calls, backRefFields] <;>
    simp only [runChecksSpec, List.append_nil, List.nil_append, List.cons_append] <;>
    (try split) <;> (try split) <;> (try split) <;> simp_all [runChecksSpec]

/-- `IncompleteRequest::note_outputs` from `storage.rs`, embedded as the list
of calls made to the `FnMut` callback: the body calls `f(0, OutputKind::Hash)`
exactly once, ignoring the request's fields. -/
def IncompleteRequest.note_outputs (_self : IncompleteRequest) : List (Nat × OutputKind) :=
  [(0, OutputKind.Hash)]

/-- `Response::fill_outputs` from `storage.rs`, embedded as the list of calls
made to the `FnMut` sink: the body calls `f(0, Output::Hash(self.value))`
exactly once. -/
def Response.fill_outputs (self : Response) : List (Nat × Output) :=
  [(0, Output.Hash self.value)]

/-- Modelled from the spec (§3): the `OutputKind` variant an `Output` value
carries. -/
def Output.kind : Output → OutputKind
  | Output.Hash _ => OutputKind.Hash
  | Output.Number _ => OutputKind.Number

/-- **C6.** `note_outputs` invokes its callback exactly once with
`(0, OutputKind::Hash)` regardless of the request's fields; `fill_outputs`
invokes its sink exactly once with `(0, Output::Hash(value))`; and the
exposures the response produces match, in set and order, what `note_outputs`
promised. -/
theorem note_outputs_matches_fill_outputs (self : IncompleteRequest) (resp : Response) :
    self.note_outputs = [(0, OutputKind.Hash)] ∧
    resp.fill_outputs = [(0, Output.Hash resp.value)] ∧
    (resp.fill_outputs.map fun p => (p.1, p.2.kind)) = self.note_outputs := by
  simp [IncompleteRequest.note_outputs, Response.fill_outputs, Output.kind]

/-- Witness for **C2** at a concrete request and oracle: the back-reference
at `(0, 0)` resolves to the oracle's hash. -/
theorem fill_resolves_fields_witness :
    (reqOneBackRef.fill oracleEx).block_hash = Field.Scalar hOne :=
  (((fill_resolves_fields reqOneBackRef oracleEx).1).2 0 0 rfl).1 hOne |>.mpr
    (by simp [oracleEx])

/-- Witness for **C5** at a concrete request and an always-accepting
predicate. -/
theorem check_outputs_ok_iff_witness :
    reqOneBackRef.check_outputs (fun _ _ _ => Except.ok ()) = Except.ok () :=
  (check_outputs_ok_iff reqOneBackRef (fun _ _ _ => Except.ok ())).mpr
    ⟨fun _ _ _ => rfl, by simp [reqOneBackRef], by simp [reqOneBackRef]⟩

/-- `IncompleteRequest::adjust_refs` from `storage.rs`: applies
`Field::adjust_req` with the mapping to each of the three fields. -/
def IncompleteRequest.adjust_refs (self : IncompleteRequest) (mapping : Nat → Nat) :
    IncompleteRequest :=
  { block_hash := self.block_hash.adjust_req mapping,
    address_hash := self.address_hash.adjust_req mapping,
    key_hash := self.key_hash.adjust_req mapping }

/-- **C7.** `adjust_refs` maps each back-reference field's `request_index`
through the mapping, keeps its `output_index`, and leaves every scalar field
untouched. -/
theorem adjust_refs_fields (self : IncompleteRequest) (mapping : Nat → Nat) :
    (∀ req idx, self.block_hash = Field.BackReference req idx →
      (self.adjust_refs mapping).block_hash = Field.BackReference (mapping req) idx) ∧
    (∀ v, self.block_hash = Field.Scalar v →
      (self.adjust_refs mapping).block_hash = Field.Scalar v) ∧
    (∀ req idx, self.address_hash = Field.BackReference req idx →
      (self.adjust_refs mapping).address_hash = Field.BackReference (mapping req) idx) ∧
    (∀ v, self.address_hash = Field.Scalar v →
      (self.adjust_refs mapping).address_hash = Field.Scalar v) ∧
    (∀ req idx, self.key_hash = Field.BackReference req idx →
      (self.adjust_refs mapping).key_hash = Field.BackReference (mapping req) idx) ∧
    (∀ v, self.key_hash = Field.Scalar v →
      (self.adjust_refs mapping).key_hash = Field.Scalar v) := by
  refine ⟨?_, ?_, ?_, ?_, ?_, ?_⟩ <;> intro a b <;> (try intro hb) <;>
    simp_all [IncompleteRequest.adjust_refs, Field.adjust_req]

lemma adjust_req_id {T : Type} (fld : Field T) : fld.adjust_req id = fld := by
  cases fld <;> rfl

lemma adjust_req_comp {T : Type} (f g : Nat → Nat) (fld : Field T) :
    (fld.adjust_req g).adjust_req f = fld.adjust_req (f ∘ g) := by
  cases fld <;> rfl

/-- **C8.** `adjust_refs` with the identity mapping leaves the request
unchanged, and applying `adjust_refs` with `g` and then with `f` equals
applying it once with the composition `f ∘ g`. -/
theorem adjust_refs_id_and_comp :
    (∀ self : IncompleteRequest, self.adjust_refs id = self) ∧
    (∀ (self : IncompleteRequest) (f g : Nat → Nat),
      (self.adjust_refs g).adjust_refs f = self.adjust_refs (f ∘ g)) := by
  constructor
  · intro self
    obtain ⟨bh, ah, kh⟩ := self
    simp [IncompleteRequest.adjust_refs, adjust_req_id]
  · intro self f g
    simp [IncompleteRequest.adjust_refs, adjust_req_comp]

/-- Witness for **C7** at a concrete request with a back-reference and a
concrete mapping. -/
theorem adjust_refs_fields_witness :
    (reqOneBackRef.adjust_refs Nat.succ).block_hash = Field.BackReference 1 0 ∧
    (reqOneBackRef.adjust_refs Nat.succ).address_hash = Field.Scalar hTwo :=
  ⟨(adjust_refs_fields reqOneBackRef Nat.succ).1 0 0 rfl,
   (adjust_refs_fields reqOneBackRef Nat.succ).2.2.2.1 hTwo rfl⟩

/-- Modelled from the spec (§6): a wire item of the length-delimited binary
structure — either an opaque byte string or an ordered list of items. -/
inductive RlpItem
  | str : List Nat → RlpItem
  | list : List RlpItem → RlpItem

/-- Little-endian decomposition of a natural number into `k` bytes. -/
def natToBytes : Nat → Nat → List Nat
  | 0, _ => []
  | k + 1, n => n % 256 :: natToBytes k (n / 256)

/-- Reassembling a little-endian byte list into a natural number. -/
def bytesToNat : List Nat → Nat
  | [] => 0
  | b :: bs => b + 256 * bytesToNat bs

lemma natToBytes_length (k n : Nat) : (natToBytes k n).length = k := by
  induction k generalizing n with
  | zero => rfl
  | succ k ih => simp [natToBytes, ih]

lemma bytesToNat_natToBytes (k n : Nat) (h : n < 256 ^ k) :
    bytesToNat (natToBytes k n) = n := by
  induction k generalizing n with
  | zero => simpa [natToBytes, bytesToNat] using (Nat.lt_one_iff.mp h).symm
  | succ k ih =>
    have hdiv : n / 256 < 256 ^ k := by
      rw [Nat.div_lt_iff_lt_mul (by norm_num)]
      calc n < 256 ^ (k + 1) := h
        _ = 256 ^ k * 256 := by ring
    simp [natToBytes, bytesToNat, ih (n / 256) hdiv, Nat.mod_add_div]

lemma two_pow_256_eq : (256 : Nat) ^ 32 = 2 ^ 256 := by norm_num

/-- Modelled from the spec (§6): a 256-bit hash is serialized as a fixed-size
32-byte string. -/
def encodeH256 (h : H256) : RlpItem :=
  RlpItem.str (natToBytes 32 h.val)

/-- Modelled from the spec (§6, §7): decoding a fixed-size 32-byte hash;
malformed data yields `none` (the codec-level error, distinct from
`NoSuchOutput`). -/
def decodeH256 : RlpItem → Option H256
  | RlpItem.str bs =>
    if h : bs.length = 32 ∧ bytesToNat bs < 2 ^ 256 then some ⟨bytesToNat bs, h.2⟩
    else none
  | _ => none

lemma decodeH256_encodeH256 (h : H256) : decodeH256 (encodeH256 h) = some h := by
  have hval : h.val < 256 ^ 32 := by rw [two_pow_256_eq]; exact h.isLt
  have hrt : bytesToNat (natToBytes 32 h.val) = h.val := bytesToNat_natToBytes 32 h.val hval
  have hlt : bytesToNat (natToBytes 32 h.val) < 2 ^ 256 := by rw [hrt]; exact h.isLt
  simp only [encodeH256, decodeH256, natToBytes_length, hlt, and_true, dif_pos]
  exact congrArg some (Fin.ext hrt)

/-- Modelled from the spec (§6): derived wire encoding of `CompleteRequest`
(`RlpEncodable` in `storage.rs`): the ordered triple
`[block_hash, address_hash, key_hash]`, matching declaration order. -/
def encodeCompleteRequest (r : CompleteRequest) : RlpItem :=
  RlpItem.list [encodeH256 r.block_hash, encodeH256 r.address_hash, encodeH256 r.key_hash]

/-- Modelled from the spec (§6): derived wire decoding of `CompleteRequest`
(`RlpDecodable` in `storage.rs`): expects exactly the ordered triple. -/
def decodeCompleteRequest : RlpItem → Option CompleteRequest
  | RlpItem.list [b, a, k] =>
    match decodeH256 b with
    | none => none
    | some block_hash =>
      match decodeH256 a with
      | none => none
      | some address_hash =>
        match decodeH256 k with
        | none => none
        | some key_hash =>
          some { block_hash := block_hash, address_hash := address_hash, key_hash := key_hash }
  | _ => none

/-- Modelled from the spec (§6): derived wire encoding of `Response`
(`RlpEncodable` in `storage.rs`): the pair
`[list-of-opaque-byte-strings (proof path), fixed-size value]`. -/
def encodeResponse (r : Response) : RlpItem :=
  RlpItem.list [RlpItem.list (r.proof.map RlpItem.str), encodeH256 r.value]

/-- Modelled from the spec (§6): decoding of the proof path, item by item;
every item must be a byte string. -/
def decodeProofList : List RlpItem → Option (List Bytes)
  | [] => some []
  | RlpItem.str bs :: rest =>
    match decodeProofList rest with
    | some bss => some (bs :: bss)
    | none => none
  | _ => none

/-- Modelled from the spec (§6): derived wire decoding of `Response`
(`RlpDecodable` in `storage.rs`): expects exactly the pair
`[proof path, value]`. -/
def decodeResponse : RlpItem → Option Response
  | RlpItem.list [RlpItem.list ps, v] =>
    match decodeProofList ps with
    | none => none
    | some proof =>
      match decodeH256 v with
      | none => none
      | some value => some { proof := proof, value := value }
  | _ => none

lemma decodeProofList_map (l : List Bytes) :
    decodeProofList (l.map RlpItem.str) = some l := by
  induction l with
  | nil => rfl
  | cons bs rest ih => simp [decodeProofList, ih]

/-- **C9.** Wire round trip: decoding the encoding of a `CompleteRequest`
yields it back (it is serialized as the ordered triple
`[block_hash, address_hash, key_hash]`), and decoding the encoding of a
`Response` yields it back (serialized as `[proof, value]`). -/
theorem wire_round_trip :
    (∀ r : CompleteRequest, decodeCompleteRequest (encodeCompleteRequest r) = some r) ∧
    (∀ r : Response, decodeResponse (encodeResponse r) = some r) := by
  constructor
  · intro r
    simp [encodeCompleteRequest, decodeCompleteRequest, decodeH256_encodeH256]
  · intro r
    simp [encodeResponse, decodeResponse, decodeProofList_map, decodeH256_encodeH256]

end Storage
